import Mathlib

/-!
Verification of the `lymph` package (unilateral lymphatic spread model).

The development shallowly embeds the Python sources:
  * `lymph/edge.py`   — `Edge.comp_spread_prob` and the `spread_prob` /
    `micro_mod` property setters;
  * `lymph/node.py`   — the legacy `Node` class (`trans_prob`, `bn_prob`,
    type inference in `__init__`);
  * `lymph/models/unilateral.py` — `assign_params`, `get_params`,
    `_evolve`, `_likelihood`, `likelihood`, `risk`, `load_data`,
    `comp_diagnose_prob`.

Probabilities are embedded as rationals (`ℚ`); the floating point of the
source is treated as exact arithmetic.  Parts of the repository that are
imported by `models/unilateral.py` but are not present in the sources
(`lymph.graph`, `lymph.descriptors.*`, `lymph.helper`) are modelled from
the specification; each such definition carries a doc comment starting
with `Modelled from the spec:`.
-/

namespace Lymph

/-! ## Edge-level probabilities (`lymph/edge.py`) -/

/-- The data of an `Edge` object that `comp_spread_prob` reads: the current
states of the parent (`start`) and child (`end`) nodes, whether the child
is binary, the two edge parameters, and whether the edge is a growth
self-edge (`start == end`). -/
structure EdgeCtx where
  startState : ℕ
  endState : ℕ
  endIsBinary : Bool
  spreadProb : ℚ
  microMod : ℚ
  isGrowth : Bool
  deriving DecidableEq, Repr

/-- Second `if`-block of `Edge.comp_spread_prob` (edge.py lines 148-162):
the branches guarded by `self.start.state == 1`.  `none` models falling
through to the next block without returning. -/
def comp_spread_prob_block2 (e : EdgeCtx) (newState : ℕ) : Option ℚ :=
  if e.startState = 1 then
    if e.endState = 0 then
      if newState = 1 then
        if e.isGrowth then none else some (e.spreadProb * e.microMod)
      else
        if e.isGrowth then none else some (1 - e.spreadProb * e.microMod)
    else if e.endState = 1 then
      if newState = 2 then
        if e.isGrowth then some e.spreadProb else none
      else
        if e.isGrowth then some (1 - e.spreadProb) else none
    else none
  else none

/-- Third `if`-block of `Edge.comp_spread_prob` (edge.py lines 163-169):
the branches guarded by `self.end.state == 0` that apply to non-growth
edges.  `none` models falling through to the final `return 1`. -/
def comp_spread_prob_block3 (e : EdgeCtx) (newState : ℕ) : Option ℚ :=
  if e.endState = 0 then
    if newState = 1 then
      if e.isGrowth then none else some e.spreadProb
    else
      if e.isGrowth then none else some (1 - e.spreadProb)
  else none

/-- `Edge.comp_spread_prob` (edge.py lines 134-171).  The first block
returns unconditionally whenever the child is binary and currently in
state 0 — without consulting the parent's state.  Otherwise the two
later blocks are tried in order and the function falls back to `1`. -/
def comp_spread_prob (e : EdgeCtx) (newState : ℕ) : ℚ :=
  if e.endIsBinary ∧ e.endState = 0 then
    if newState = 1 then e.spreadProb else 1 - e.spreadProb
  else
    match comp_spread_prob_block2 e newState with
    | some r => r
    | none =>
      match comp_spread_prob_block3 e newState with
      | some r => r
      | none => 1

/-! ## Legacy node probabilities (`lymph/node.py`) -/

/-- `Node.trans_prob` (node.py lines 70-98), non-log branch.  The node's
incoming edges are given as pairs `(t, parentState)` where `t` is the
edge's spread probability.  Returns the pair `(res[0], res[1])`: the
probability of staying healthy and of becoming involved.  For a node in
state 1 the function returns `(0, 1)` immediately. -/
def trans_prob (state : ℕ) (inc : List (ℚ × ℕ)) : ℚ × ℚ :=
  if state = 1 then (0, 1)
  else
    inc.foldl
      (fun r tx => (r.1 * (1 - tx.1) ^ tx.2, r.2 + r.1 * tx.1 * tx.2))
      (1, 0)

/-- `Node.bn_prob` (node.py lines 129-150), non-log branch:
`res = ∏ (1-t)^{parent state}; res *= (-1)^state; res += state`. -/
def bn_prob (state : ℕ) (inc : List (ℚ × ℕ)) : ℚ :=
  (inc.foldl (fun r tx => r * (1 - tx.1) ^ tx.2) 1) * (-1) ^ state + state

end Lymph

namespace Lymph

/-- Example binary LNL→LNL edge context for scenario S2: spread prob
`p_II = 0.2`, healthy parent, healthy child. -/
def s2Edge : EdgeCtx :=
  { startState := 0, endState := 0, endIsBinary := true,
    spreadProb := 1/5, microMod := 1, isGrowth := false }

/-- Growth self-edge on a trinary LNL: parent and child coincide, so
their states agree. -/
def growthEdge (g mu : ℚ) (s : ℕ) : EdgeCtx :=
  { startState := s, endState := s, endIsBinary := false,
    spreadProb := g, microMod := mu, isGrowth := true }

/-! ## Parameter surface (`Unilateral.assign_params` / `get_params`)

`models/unilateral.py` accesses edge parameters through the
`params.Lookup` descriptor and diagnose-time distributions through the
`diagnose_times.DistributionLookup` descriptor; both descriptor modules
(`lymph/descriptors/`) are not among the sources.  The mappings
themselves are therefore modelled from the spec (§4.7): string keys built
from the graph addressing scalar values.  The *routing* of keyword
arguments, the aggregate keys `"growth"` / `"micro_mod"`, and the
`[0,1]` validation of the edge setters are taken from the sources
(`assign_params`, unilateral.py lines 278-317; the `spread_prob` and
`micro_mod` setters, edge.py lines 90-119). -/

/-- Which edge attribute an edge-parameter key addresses.  `growth`
entries stand for the `spread_prob` of the growth self-edges (the list
`self.growth_edges`), `lnlMicro` entries for the `micro_mod` of the
LNL→LNL edges (the list `self.lnl_edges`). -/
inductive EdgeParamKind where
  | tumorSpread
  | lnlSpread
  | lnlMicro
  | growth
  deriving DecidableEq, Repr

/-- Modelled from the spec: one entry of the `edge_params` lookup —
a string key (`"spread_<parent>_to_<child>"`, `"micro_<parent>_to_<child>"`
or `"growth_<lnl>"`, §4.7) together with the scalar it addresses. -/
structure EdgeParam where
  name : String
  kind : EdgeParamKind
  value : ℚ
  deriving DecidableEq, Repr

/-- Modelled from the spec: one entry of `diag_time_dists` — the T-stage
name, the scalar parameter of the parametrized distribution
(`get_param` / `update`, §4.6-4.7, range taken as `[0,1]`), and the
frozen pmf over diagnose times `0..max_t` that the distribution exposes
as `.pmf`.  `update` regenerates the pmf from the parameter; since the
parametric family is not among the sources, the regeneration is not
modelled and no claim observes it. -/
structure DistEntry where
  name : String
  param : ℚ
  pmf : List ℚ
  deriving DecidableEq, Repr

/-- The parameter state of a `Unilateral` model: the `edge_params`
lookup and the `diag_time_dists` lookup, each in its iteration order. -/
structure ModelParams where
  edgeParams : List EdgeParam
  dists : List DistEntry
  deriving DecidableEq, Repr

/-- Association-list lookup (Python `dict.__getitem__` / `in`). -/
def lookupA {α : Type} (l : List (String × α)) (k : String) : Option α :=
  match l with
  | [] => none
  | (k', v) :: rest => if k' = k then some v else lookupA rest k

/-- The range check performed by the `spread_prob` and `micro_mod`
setters (edge.py lines 95 and 116): `0 <= value <= 1`. -/
def inRange01 (v : ℚ) : Bool := decide (0 ≤ v) && decide (v ≤ 1)

/-- Errors raised while assigning parameters.  The edge setters raise
`ValueError` for out-of-range values (edge.py).  Modelled from the spec:
an unknown key in a bulk assign raises the same `ParameterRangeError`
kind (§7 lists both under `ParameterRangeError`, which `likelihood`
converts when invoked with `given_params`); it is therefore embedded as
the same constructor, matching the `except ValueError` in
`Unilateral.likelihood`. -/
inductive PErr where
  | valueError
  deriving DecidableEq, Repr

/-- Set the value of the first edge-parameter entry named `k`. -/
def setEdgeParam (l : List EdgeParam) (k : String) (v : ℚ) : List EdgeParam :=
  match l with
  | [] => []
  | e :: rest =>
    if e.name = k then { e with value := v } :: rest
    else e :: setEdgeParam rest k v

/-- Set the value of every edge-parameter entry of kind `kd`
(the loops `for edge in self.growth_edges` / `for edge in
self.lnl_edges` in `assign_params`). -/
def setKindParams (l : List EdgeParam) (kd : EdgeParamKind) (v : ℚ) : List EdgeParam :=
  l.map (fun e => if e.kind = kd then { e with value := v } else e)

/-- Set the parameter of the distribution named `k`
(`self.diag_time_dists[key].update(value)`). -/
def setDistParam (l : List DistEntry) (k : String) (v : ℚ) : List DistEntry :=
  match l with
  | [] => []
  | d :: rest =>
    if d.name = k then { d with param := v } :: rest
    else d :: setDistParam rest k v

/-- One iteration of the keyword loop of `Unilateral.assign_params`
(unilateral.py lines 304-317).  The routing order is that of the source:
a key found in `diag_time_dists` first, then the aggregate keys
`"growth"` and `"micro_mod"`, else the `edge_params` lookup.  The
validation raises before any value is written, so a failing key mutates
nothing.  An aggregate key whose edge list is empty performs no
iteration and hence neither validates nor raises. -/
def set_kw (m : ModelParams) (k : String) (v : ℚ) : Except PErr ModelParams :=
  if m.dists.any (fun d => d.name = k) then
    if inRange01 v then .ok { m with dists := setDistParam m.dists k v }
    else .error .valueError
  else if k = "growth" then
    if m.edgeParams.any (fun e => e.kind = EdgeParamKind.growth) then
      if inRange01 v then
        .ok { m with edgeParams := setKindParams m.edgeParams EdgeParamKind.growth v }
      else .error .valueError
    else .ok m
  else if k = "micro_mod" then
    if m.edgeParams.any (fun e => e.kind = EdgeParamKind.lnlMicro) then
      if inRange01 v then
        .ok { m with edgeParams := setKindParams m.edgeParams EdgeParamKind.lnlMicro v }
      else .error .valueError
    else .ok m
  else if m.edgeParams.any (fun e => e.name = k) then
    if inRange01 v then .ok { m with edgeParams := setEdgeParam m.edgeParams k v }
    else .error .valueError
  else .error .valueError

/-- The keyword path of `Unilateral.assign_params` (unilateral.py lines
304-317): the provided pairs are processed one after the other; the
first error aborts the loop (the exception propagates) and the
mutations already performed are kept.  Returns the resulting parameter
state together with the raised error, if any.  (The positional-argument
path, lines 297-302, is not exercised by any claim and is not
modelled.) -/
def assign_params (m : ModelParams) : List (String × ℚ) → ModelParams × Option PErr
  | [] => (m, none)
  | (k, v) :: rest =>
    match set_kw m k v with
    | .ok m' => assign_params m' rest
    | .error e => (m, some e)

/-- `Unilateral.get_params(as_dict=True)` (unilateral.py lines 260-275):
the dictionary of edge-parameter values followed by the distribution
parameters. -/
def get_params (m : ModelParams) : List (String × ℚ) :=
  m.edgeParams.map (fun e => (e.name, e.value)) ++
    m.dists.map (fun d => (d.name, d.param))

/-! ## HMM evolution (`Unilateral._evolve`, unilateral.py lines 608-656) -/

/-- The all-healthy starting distribution (`start_state`, lines 630-631):
index 0 of the state list is the all-zero state vector. -/
def pi0 (n : ℕ) : Fin n → ℚ := fun i => if i.val = 0 then 1 else 0

/-- The row-collecting loop of `_evolve` (lines 644-656): starting from
`state`, record a row, multiply by the transition matrix, `k` times,
and record the final state as the last row.  Produces `k + 1` rows. -/
def iter_rows {n : ℕ} (T : Matrix (Fin n) (Fin n) ℚ) :
    (Fin n → ℚ) → ℕ → List (Fin n → ℚ)
  | v, 0 => [v]
  | v, k + 1 => v :: iter_rows T (Matrix.vecMul v T) k

/-- `_evolve(t_first)` with `t_last=None` (lines 633-637): the single
state distribution `start_state @ mat_pow(transition_matrix, t_first)`. -/
def evolve_at {n : ℕ} (T : Matrix (Fin n) (Fin n) ℚ) (tFirst : ℕ) : Fin n → ℚ :=
  Matrix.vecMul (pi0 n) (T ^ tFirst)

/-- `_evolve(t_first, t_last)` (lines 608-656): raises a `ValueError`
when `t_last < t_first`, otherwise returns the
`(t_last - t_first + 1)`-row matrix of state distributions. -/
def evolve {n : ℕ} (T : Matrix (Fin n) (Fin n) ℚ) (tFirst tLast : ℕ) :
    Except String (List (Fin n → ℚ)) :=
  if tLast < tFirst then
    .error ("Starting time must be smaller than ending time.")
  else
    .ok (iter_rows T (evolve_at T tFirst) (tLast - tFirst))

/-! ## Diagnoses and data ingestion -/

/-- `pmf @ evolved`: marginalization of the rows of the evolved model
over diagnose times with the pmf of a T-stage. -/
def marg_state_probs {n : ℕ} (pmf : List ℚ) (rows : List (Fin n → ℚ)) :
    Fin n → ℚ :=
  fun j => (List.zipWith (fun p row => p * row j) pmf rows).sum

/-- `v @ C` for one column of a diagnose matrix. -/
def dotFin {n : ℕ} (v : Fin n → ℚ) (col : List ℚ) : ℚ :=
  ∑ i : Fin n, v i * col.getD i.val 0

/-- Dot product of two lists (used by the BN likelihood). -/
def dotL (v col : List ℚ) : ℚ := (List.zipWith (fun a b => a * b) v col).sum

/-- Modelled from the spec: the state list (§3 StateList; the helper
`change_base` from `lymph.helper` is not among the sources).  The state
vector of index `i` is given by the base-`b` digits of `i` in LNL order,
most significant digit first. -/
def state_of_index (b L i : ℕ) : List ℕ :=
  (List.range L).map (fun k => i / b ^ (L - 1 - k) % b)

/-- Modelled from the spec: `LymphNodeLevel.comp_obs_prob` (the new node
module `lymph.graph` is not among the sources): the probability of one
LNL's observation given its state, read off the modality's confusion
matrix `P(observation | hidden)`; a missing observation contributes
factor 1 (§4.5). -/
def comp_obs_prob (obs : Option Bool) (state : ℕ) (cm : List (List ℚ)) : ℚ :=
  match obs with
  | none => 1
  | some b => (cm.getD (if b then 1 else 0) []).getD state 0

/-- `Unilateral.comp_diagnose_prob` (unilateral.py lines 363-394): the
probability of observing `diagnoses` given the current LNL states.  The
outer loop runs over the stored modalities, skipping those absent from
the provided diagnoses; the inner loop runs over the LNLs, skipping
those absent from the modality's diagnose (`except KeyError: continue`).
`lnls` pairs each LNL name with its currently assigned state. -/
def comp_diagnose_prob (modalities : List (String × List (List ℚ)))
    (lnls : List (String × ℕ))
    (diagnoses : List (String × List (String × Option Bool))) : ℚ :=
  modalities.foldl
    (fun prob mo =>
      match lookupA diagnoses mo.1 with
      | none => prob
      | some modDiagnose =>
        lnls.foldl
          (fun prob lnl =>
            match lookupA modDiagnose lnl.1 with
            | none => prob
            | some obs => prob * comp_obs_prob obs lnl.2 mo.2)
          prob)
    1

/-- One row of a patient table: the T-stage and, per modality, the
tri-valued observations per LNL (`some true / some false / none`). -/
structure Patient where
  tStage : String
  diagnoses : List (String × List (String × Option Bool))
  deriving DecidableEq, Repr

/-- The model state of `Unilateral` that the inference kernel reads:
the parameter surface, the cached transition matrix over the `n` hidden
states, the shared diagnose-time horizon, the graph's LNL names and the
number of allowed per-LNL states, the stored modalities (name ↦
confusion matrix, rows indexed by observation, columns by state), and
the per-T-stage diagnose matrices (each stored as the list of
per-patient columns of length `n`).  The transition matrix and the
horizon are carried as fields: their builders (`lymph.descriptors.matrix`
and `lymph.descriptors.diagnose_times`) are not among the sources, so
they are modelled from the spec as already-assembled cached values. -/
structure HMMModel (n : ℕ) where
  params : ModelParams
  T : Matrix (Fin n) (Fin n) ℚ
  maxT : ℕ
  lnlNames : List String
  numStates : ℕ
  modalities : List (String × List (List ℚ))
  diagnoseMatrices : List (String × List (List ℚ))

/-- `Unilateral._gen_diagnose_matrices` (unilateral.py lines 463-486)
for one T-stage: for every state-list index and every patient, the
probability of the patient's diagnoses given that state.  Stored as a
list of per-patient columns. -/
def gen_diagnose_matrix {n : ℕ} (m : HMMModel n) (table : List Patient) :
    List (List ℚ) :=
  table.map (fun patient =>
    (List.range (m.numStates ^ m.lnlNames.length)).map
      (fun i => comp_diagnose_prob m.modalities
        (m.lnlNames.zip (state_of_index m.numStates m.lnlNames.length i))
        patient.diagnoses))

/-- `list(set(data[("info", "t_stage")]))` (unilateral.py line 586): the
distinct T-stages of the data (a Python set has no specified order; the
first-occurrence order is used here, and no claim depends on it). -/
def data_t_stages (data : List Patient) : List String :=
  (data.map Patient.tStage).dedup

/-- `Unilateral.load_data` in `"HMM"` mode (unilateral.py lines 537-599):
the old diagnose matrices are discarded and one matrix per T-stage
present in the data is generated. -/
def load_data {n : ℕ} (m : HMMModel n) (data : List Patient) : HMMModel n :=
  { m with diagnoseMatrices := ((data_t_stages data).map
      (fun s => (s, gen_diagnose_matrix m (data.filter (fun p => p.tStage = s))))) }

/-- The T-stages for which `load_data` emits the non-fatal
`warnings.warn` (unilateral.py lines 594-599): present in the data but
absent from `diag_time_dists`. -/
def load_data_warnings {n : ℕ} (m : HMMModel n) (data : List Patient) :
    List String :=
  (data_t_stages data).filter (fun s => !(m.params.dists.any (fun d => d.name = s)))

/-! ## Likelihood (`Unilateral._likelihood` / `likelihood`) -/

/-- `stored_t_stages.intersection(provided_t_stages)` (unilateral.py
lines 674-676): the T-stages having both a diagnose matrix and a
diagnose-time distribution. -/
def t_stages {n : ℕ} (m : HMMModel n) : List String :=
  (m.diagnoseMatrices.map Prod.fst).filter
    (fun s => m.params.dists.any (fun d => d.name = s))

/-- The contribution of one T-stage to the HMM likelihood
(unilateral.py lines 683-691): `p = pmf @ evolved @ C` and the product
of the entries of `p` (the `log=False` branch multiplies `np.prod(p)`
into the accumulator; the `log=True` branch adds the logs of the same
entries). -/
def stage_prob {n : ℕ} (m : HMMModel n) (evolved : List (Fin n → ℚ))
    (s : String) : ℚ :=
  let pmf := (lookupA (m.params.dists.map (fun d => (d.name, d.pmf))) s).getD []
  let marg := marg_state_probs pmf evolved
  ((lookupA m.diagnoseMatrices s).getD []).foldl
    (fun acc col => acc * dotFin marg col) 1

/-- `Unilateral._likelihood` in `"HMM"` mode with `log=False`
(unilateral.py lines 659-691): evolve to `max_t` and multiply the
per-stage products over the T-stage intersection.  The `log=True`
branch sums the logs of exactly the same entries. -/
def hmm_likelihood_lin {n : ℕ} (m : HMMModel n) : ℚ :=
  match evolve m.T 0 m.maxT with
  | .error _ => 0
  | .ok evolved => (t_stages m).foldl (fun acc s => acc * stage_prob m evolved s) 1

/-- Return value of `Unilateral.likelihood`: `-np.inf`, a linear-scale
value (`log=False`), or the natural log of a linear-scale value
(`log=True`; the log itself is kept symbolic since the embedding is
exact rational arithmetic). -/
inductive PyVal where
  | neginf
  | lin (q : ℚ)
  | logOf (q : ℚ)
  deriving DecidableEq, Repr

/-- `Unilateral.likelihood` with `given_params` provided (unilateral.py
lines 738-749): `assign_params(**given_params)` wrapped in
`try: ... except ValueError: return -np.inf if log else 0.`, then
`_likelihood` on the updated model. -/
def likelihood {n : ℕ} (m : HMMModel n) (given_params : List (String × ℚ))
    (log : Bool) : PyVal :=
  match assign_params m.params given_params with
  | (_, some _) => if log then PyVal.neginf else PyVal.lin 0
  | (p', none) =>
    if log then PyVal.logOf (hmm_likelihood_lin { m with params := p' })
    else PyVal.lin (hmm_likelihood_lin { m with params := p' })

/-! ## Risk (`Unilateral.risk`, unilateral.py lines 752-843) -/

/-- `Unilateral.risk` in `"HMM"` mode with `involvement=None` and
`given_params=None`: the vector of diagnose probabilities over the state
list (lines 799-802), the time-marginalized state distribution (lines
805-808), the joint, its normalization, and the posterior (lines
818-826).  `none` models the `KeyError` of `diag_time_dists[t_stage]`
when the requested T-stage has no distribution. -/
def risk_posterior {n : ℕ} (m : HMMModel n)
    (given_diagnoses : List (String × List (String × Option Bool)))
    (t_stage : String) : Option (Fin n → ℚ) :=
  match lookupA (m.params.dists.map (fun d => (d.name, d.pmf))) t_stage with
  | none => none
  | some pmf =>
    match evolve m.T 0 m.maxT with
    | .error _ => none
    | .ok state_probs =>
      let diagnose_probs : Fin n → ℚ := fun i =>
        comp_diagnose_prob m.modalities
          (m.lnlNames.zip (state_of_index m.numStates m.lnlNames.length i.val))
          given_diagnoses
      let marg := marg_state_probs pmf state_probs
      let joint : Fin n → ℚ := fun i => marg i * diagnose_probs i
      let total := ∑ i, joint i
      some (fun i => joint i / total)

/-! ## Bayesian-network likelihood (`_likelihood` in `"BN"` mode) -/

/-- One LNL of the Bayesian network: its incoming edges as pairs of the
edge's spread probability and the parent — `none` for a tumour parent
(whose state is pinned at 1, node.py line 42), `some j` for the LNL at
index `j` of the state vector. -/
structure BNLnl where
  inc : List (ℚ × Option ℕ)
  deriving DecidableEq, Repr

/-- The state of an edge's parent under a given state vector. -/
def parent_state (sv : List ℕ) (pa : Option ℕ) : ℕ :=
  match pa with
  | none => 1
  | some j => sv.getD j 0

/-- The body of the BN loop of `_likelihood` (unilateral.py lines
695-700) for one state vector: `assign_states(state)` followed by the
product of `node.bn_prob()` over the LNLs. -/
def bn_state_prob (g : List BNLnl) (sv : List ℕ) : ℚ :=
  (g.zip sv).foldl
    (fun acc ls =>
      acc * bn_prob ls.2 (ls.1.inc.map (fun e => (e.1, parent_state sv e.2))))
    1

/-- The vector `state_probs` of the BN branch, over the state list. -/
def bn_state_prob_list (b : ℕ) (g : List BNLnl) : List ℚ :=
  (List.range (b ^ g.length)).map
    (fun i => bn_state_prob g (state_of_index b g.length i))

/-- `Unilateral._likelihood` in `"BN"` mode with `log=False`
(unilateral.py lines 694-704): `p = state_probs @ diagnose_matrices["BN"]`
and `llh = np.prod(p)` (the `log=True` branch sums the logs of the same
entries). -/
def bn_likelihood_lin (b : ℕ) (g : List BNLnl)
    (dm : List (String × List (List ℚ))) : ℚ :=
  let sp := bn_state_prob_list b g
  ((lookupA dm ("BN")).getD []).foldl (fun acc col => acc * dotL sp col) 1

/-- The per-state product ∏ (1 − t_e)^{x_e} over a node's incoming
edges: the probability that no involved parent spreads to this node. -/
def prod_no_spread (inc : List (ℚ × ℕ)) : ℚ :=
  (inc.map (fun tx => (1 - tx.1) ^ tx.2)).prod

/-- The BN conditional probability as stated by the spec (§4.9 BN mode):
a binary LNL is in state 0 with probability ∏ (1 − t_e)^{x_e} and in
state 1 with the complement. -/
def bn_cond_prob_spec (s : ℕ) (inc : List (ℚ × ℕ)) : ℚ :=
  if s = 0 then prod_no_spread inc else 1 - prod_no_spread inc

/-- The spec-side vector `π_BN` entry: the product over the LNLs of the
conditional probability of each LNL's state given its parents. -/
def pi_bn_spec (g : List BNLnl) (sv : List ℕ) : ℚ :=
  ((g.zip sv).map
    (fun ls => bn_cond_prob_spec ls.2 (ls.1.inc.map (fun e => (e.1, parent_state sv e.2))))).prod

/-! ## Node construction (`Node.__init__`, node.py lines 24-50) -/

/-- The attributes of a legacy `Node` set by `__init__` that the claims
observe. -/
structure NodeRec where
  name : String
  typ : String
  state : ℤ
  deriving DecidableEq, Repr

/-- `Node.__init__` (node.py lines 24-50): when `typ` is `None` the kind
is inferred from `name.lower()[0] == 't'` (Python lowercases the whole
name and takes the first character; per character this is ASCII
`Char.toLower`); an empty name raises an `IndexError`, modelled as
`none`.  A tumour node's state is pinned to 1 regardless of the `state`
argument (lines 40-44). -/
def node_init (name : String) (state : ℤ) (typ : Option String) :
    Option NodeRec :=
  let inferred : Option String :=
    match typ with
    | some t => some t
    | none =>
      match name.data with
      | [] => none
      | c :: _ => some (if c.toLower = 't' then "tumour" else "lnl")
  match inferred with
  | none => none
  | some t =>
    some { name := name, typ := t, state := if t = "tumour" then 1 else state }

/-! ## Auxiliary definitions used by the amended claims -/

/-- All-success application of a keyword list: `some` of the resulting
state when every single assignment succeeds, `none` otherwise. -/
def apply_ok (m : ModelParams) : List (String × ℚ) → Option ModelParams
  | [] => some m
  | (k, v) :: rest =>
    match set_kw m k v with
    | .ok m' => apply_ok m' rest
    | .error _ => none

/-- Whether the key `k` actually reaches a value validation in
`assign_params`: every key does, except the aggregate keys `"growth"`
and `"micro_mod"` when the model has no growth edges resp. no LNL→LNL
micro parameters — their loops run zero iterations and silently accept
any value. -/
def key_applies (p : ModelParams) (k : String) : Bool :=
  if p.dists.any (fun d => d.name = k) then true
  else if k = "growth" then p.edgeParams.any (fun e => e.kind = EdgeParamKind.growth)
  else if k = "micro_mod" then p.edgeParams.any (fun e => e.kind = EdgeParamKind.lnlMicro)
  else true

/-- The key structure of a parameter state: everything except the
stored scalar values.  Successful assignments never change it. -/
def param_shape (p : ModelParams) : List (String × EdgeParamKind) × List String :=
  (p.edgeParams.map (fun e => (e.name, e.kind)), p.dists.map (fun d => d.name))

/-- The spec-side time-marginalized state distribution of §4.10:
`π_marg[j] = Σ_t pmf_t · (π₀ · T^t)[j]`. -/
def pi_marg_spec {n : ℕ} (pmf : List ℚ) (T : Matrix (Fin n) (Fin n) ℚ) :
    Fin n → ℚ :=
  fun j =>
    ((List.range pmf.length).map
      (fun t => pmf.getD t 0 * Matrix.vecMul (pi0 n) (T ^ t) j)).sum

/-- Remove the diagnose matrix of one T-stage from a model. -/
def erase_stage {n : ℕ} (m : HMMModel n) (s : String) : HMMModel n :=
  { m with diagnoseMatrices := m.diagnoseMatrices.filter (fun p => ¬ p.1 = s) }

/-! ## Concrete example instances used by counterexamples and witnesses -/

/-- Parameters of the binary chain `T→II→III`: two spread parameters,
no growth edges (binary model), one diagnose-time distribution. -/
def exChainParams : ModelParams :=
  { edgeParams := [
      { name := "spread_T_to_II", kind := EdgeParamKind.tumorSpread, value := 0 },
      { name := "spread_II_to_III", kind := EdgeParamKind.lnlSpread, value := 0 }],
    dists := [{ name := "early", param := 0, pmf := [1] }] }

/-- `exChainParams` after `spread_T_to_II` has been set to 1. -/
def exChainParamsUpdated : ModelParams :=
  { edgeParams := [
      { name := "spread_T_to_II", kind := EdgeParamKind.tumorSpread, value := 1 },
      { name := "spread_II_to_III", kind := EdgeParamKind.lnlSpread, value := 0 }],
    dists := [{ name := "early", param := 0, pmf := [1] }] }

/-- A one-LNL binary model (no growth edges) with one loaded T-stage
holding zero patients and a one-step time horizon. -/
def exModel : HMMModel 1 :=
  { params := exChainParams,
    T := 1,
    maxT := 0,
    lnlNames := ["II"],
    numStates := 2,
    modalities := [],
    diagnoseMatrices := [("early", [])] }

/-- A two-state model with a deterministic (row-stochastic) transition
matrix, used to instantiate the risk and evolution theorems. -/
def exModel2 : HMMModel 2 :=
  { params := exChainParams,
    T := Matrix.of ![![0, 1], ![0, 1]],
    maxT := 1,
    lnlNames := ["II"],
    numStates := 2,
    modalities := [],
    diagnoseMatrices := [("early", [])] }

/-- Two patients, one of T-stage `"early"` and one of T-stage `"foo"`
(the latter has no diagnose-time distribution in `exChainParams`). -/
def exData : List Patient :=
  [{ tStage := "early", diagnoses := [] },
   { tStage := "foo", diagnoses := [] }]

end Lymph

/-! # Theorems -/

namespace Lymph

lemma toLower_shift_eq_t {n : ℕ} (h1 : 65 ≤ n) (h2 : n ≤ 90) :
    Char.ofNat (n + 32) = 't' ↔ n = 84 := by
  interval_cases n <;> decide

lemma toLower_eq_t_iff (c : Char) : c.toLower = 't' ↔ c = 't' ∨ c = 'T' := by
  constructor
  · intro h
    unfold Char.toLower at h
    by_cases hn : c.toNat ≥ 65 ∧ c.toNat ≤ 90
    · rw [if_pos hn] at h
      have h84 : c.toNat = 84 := (toLower_shift_eq_t hn.1 hn.2).mp h
      have hc := Char.ofNat_toNat c
      rw [h84] at hc
      rw [← hc]
      exact Or.inr rfl
    · rw [if_neg hn] at h
      exact Or.inl h
  · rintro (rfl | rfl) <;> decide

/-- C1: the spec says that an LNL→LNL edge with a binary child whose
parent LNL is healthy (state 0) contributes factor 1 — the child
transitions 0→1 with probability 0 and stays 0→0 with probability 1,
and in scenario S2 the entry `(0,0) → (1,0)` equals `0.4 · 1`.  The
legacy `Node.trans_prob` satisfies this (conjuncts 4 and 5), but
`Edge.comp_spread_prob` ignores the parent's state whenever the child
is binary and in state 0: at `spread_prob = 0.2` it returns `0.2` for
`0→1` and `0.8` for `0→0` even though the parent is healthy
(conjuncts 1-3), contradicting its own docstring, the legacy code and
the spec.  This theorem evaluates both functions at that failing
input. -/
theorem c1_binary_edge_healthy_parent_eval :
    comp_spread_prob s2Edge 1 = 1/5 ∧
    comp_spread_prob s2Edge 0 = 4/5 ∧
    ¬ ((1 : ℚ)/5 = 0) ∧
    trans_prob 0 [((1 : ℚ)/5, 0)] = (1, 0) ∧
    (trans_prob 0 [((2 : ℚ)/5, 1)]).2 * (trans_prob 0 [((1 : ℚ)/5, 0)]).1 = 2/5 := by
  refine ⟨?_, ?_, ?_, ?_, ?_⟩ <;>
    norm_num [comp_spread_prob, comp_spread_prob_block2, comp_spread_prob_block3,
      s2Edge, trans_prob]

/-- C5: a growth self-edge on a trinary LNL with growth probability `g`
contributes `g` for `1→2` and `1−g` for `1→1`, and contributes factor 1
whenever the child is currently in state 0 or 2; with `g = 0.5`
(scenario S3) both state-1 factors are `0.5`. -/
theorem c5_growth_edge_contract (g mu : ℚ) (ns : ℕ) :
    comp_spread_prob (growthEdge g mu 1) 2 = g ∧
    comp_spread_prob (growthEdge g mu 1) 1 = 1 - g ∧
    comp_spread_prob (growthEdge g mu 0) ns = 1 ∧
    comp_spread_prob (growthEdge g mu 2) ns = 1 ∧
    comp_spread_prob (growthEdge (1/2) mu 1) 2 = 1/2 ∧
    comp_spread_prob (growthEdge (1/2) mu 1) 1 = 1/2 := by
  unfold comp_spread_prob growthEdge comp_spread_prob_block2 comp_spread_prob_block3
  refine ⟨by simp, by simp, ?_, by simp, by norm_num, by norm_num⟩
  by_cases h : ns = 1 <;> simp [h]

/-- C10: with `typ=None`, `Node.__init__` infers the kind from the name
alone — a first character `'t'` or `'T'` yields a tumour, any other
first character an LNL — and every tumour node (inferred or explicitly
typed) has its state pinned to 1, ignoring the `state` argument. -/
theorem c10_node_typ_inference (name : String) (st : ℤ) (c : Char)
    (cs : List Char) (h : name.data = c :: cs) :
    ((c = 't' ∨ c = 'T') →
      node_init name st none = some { name := name, typ := "tumour", state := 1 }) ∧
    ((¬ c = 't' ∧ ¬ c = 'T') →
      node_init name st none = some { name := name, typ := "lnl", state := st }) ∧
    (∀ (nm : String) (st' : ℤ),
      node_init nm st' (some ("tumour")) =
        some { name := nm, typ := "tumour", state := 1 }) := by
  refine ⟨?_, ?_, ?_⟩
  · intro hc
    have hl : c.toLower = 't' := (toLower_eq_t_iff c).mpr hc
    unfold node_init
    rw [h]
    simp [hl]
  · intro hc
    have hl : ¬ c.toLower = 't' := by
      intro hl
      rcases (toLower_eq_t_iff c).mp hl with h1 | h2
      · exact hc.1 h1
      · exact hc.2 h2
    unfold node_init
    rw [h]
    simp [hl]
  · intro nm st'
    rfl

/-- Witness for C10 at the concrete nodes `"Two"` (tumour by inference,
state argument 5 ignored) discharging the nonempty-name hypothesis. -/
theorem c10_node_typ_inference_witness :
    node_init ("Two") 5 none = some { name := "Two", typ := "tumour", state := 1 } :=
  (c10_node_typ_inference ("Two") 5 'T' ['w', 'o'] (by decide)).1 (Or.inr rfl)

end Lymph

namespace Lymph

/-- C2 counterexample: `assign_params` on the chain parameters with a
valid first pair and an out-of-range second pair raises, yet the first
parameter keeps its new value — the failed bulk assignment is not
atomic. -/
theorem c2_assign_params_not_atomic :
    assign_params exChainParams
        [("spread_T_to_II", 1), ("spread_II_to_III", 2)] =
      (exChainParamsUpdated, some PErr.valueError) ∧
    ¬ exChainParamsUpdated = exChainParams := by
  refine ⟨by decide, by decide⟩

/-- C2 (amended): `assign_params` applies the provided pairs in order;
when one of them fails, the pairs processed before it keep their newly
assigned values, the failing pair and everything after it leave the
parameters unchanged, and the error propagates. -/
theorem c2_assign_params_applies_earlier_pairs (m m1 : ModelParams)
    (pre post : List (String × ℚ)) (k : String) (v : ℚ) (e : PErr)
    (hpre : apply_ok m pre = some m1)
    (herr : set_kw m1 k v = .error e) :
    assign_params m (pre ++ (k, v) :: post) = (m1, some e) := by
  induction pre generalizing m
  case nil =>
    simp only [apply_ok] at hpre
    cases hpre
    simp [assign_params, herr]
  case cons p rest ih =>
    rcases p with ⟨k', v'⟩
    simp only [apply_ok] at hpre
    cases hsk : set_kw m k' v' with
    | ok m' =>
      rw [hsk] at hpre
      simpa [assign_params, hsk] using ih m' hpre
    | error e' =>
      rw [hsk] at hpre
      cases hpre

/-- Witness for C2's amended theorem on the chain parameters. -/
theorem c2_assign_params_applies_earlier_pairs_witness :
    assign_params exChainParams
        ([("spread_T_to_II", 1)] ++ ("spread_II_to_III", (2 : ℚ)) :: []) =
      (exChainParamsUpdated, some PErr.valueError) :=
  c2_assign_params_applies_earlier_pairs exChainParams exChainParamsUpdated
    [("spread_T_to_II", 1)] [] "spread_II_to_III" 2 PErr.valueError
    (by decide) (by rfl)

end Lymph

namespace Lymph

lemma any_map_eq {α β : Type} (l : List α) (f : α → β) (p : β → Bool) :
    (l.map f).any p = l.any (fun a => p (f a)) := by
  induction l with
  | nil => rfl
  | cons a rest ih => simp only [List.map_cons, List.any_cons, ih]

lemma any_congr_of_map_eq {α β : Type} (l l' : List α) (f : α → β) (p : β → Bool)
    (h : l.map f = l'.map f) :
    l.any (fun a => p (f a)) = l'.any (fun a => p (f a)) := by
  rw [← any_map_eq l f p, ← any_map_eq l' f p, h]

lemma setEdgeParam_names (l : List EdgeParam) (k : String) (v : ℚ) :
    (setEdgeParam l k v).map EdgeParam.name = l.map EdgeParam.name := by
  induction l with
  | nil => rfl
  | cons a rest ih => by_cases h : a.name = k <;> simp [setEdgeParam, h, ih]

lemma setEdgeParam_kinds (l : List EdgeParam) (k : String) (v : ℚ) :
    (setEdgeParam l k v).map EdgeParam.kind = l.map EdgeParam.kind := by
  induction l with
  | nil => rfl
  | cons a rest ih => by_cases h : a.name = k <;> simp [setEdgeParam, h, ih]

lemma setKindParams_names (l : List EdgeParam) (kd : EdgeParamKind) (v : ℚ) :
    (setKindParams l kd v).map EdgeParam.name = l.map EdgeParam.name := by
  induction l with
  | nil => rfl
  | cons a rest ih =>
    by_cases h : a.kind = kd <;> simp only [setKindParams, List.map_cons, h] <;>
      simp [setKindParams] at ih ⊢ <;> simpa using ih

lemma setKindParams_kinds (l : List EdgeParam) (kd : EdgeParamKind) (v : ℚ) :
    (setKindParams l kd v).map EdgeParam.kind = l.map EdgeParam.kind := by
  induction l with
  | nil => rfl
  | cons a rest ih =>
    by_cases h : a.kind = kd <;> simp only [setKindParams, List.map_cons, h] <;>
      simp [setKindParams] at ih ⊢ <;> simpa using ih

lemma setDistParam_names (l : List DistEntry) (k : String) (v : ℚ) :
    (setDistParam l k v).map DistEntry.name = l.map DistEntry.name := by
  induction l with
  | nil => rfl
  | cons a rest ih => by_cases h : a.name = k <;> simp [setDistParam, h, ih]

lemma set_kw_ok_shape (p : ModelParams) (k : String) (v : ℚ) (p' : ModelParams)
    (h : set_kw p k v = .ok p') :
    p'.edgeParams.map EdgeParam.name = p.edgeParams.map EdgeParam.name ∧
    p'.edgeParams.map EdgeParam.kind = p.edgeParams.map EdgeParam.kind ∧
    p'.dists.map DistEntry.name = p.dists.map DistEntry.name := by
  unfold set_kw at h
  split_ifs at h <;> cases h <;>
    exact ⟨by simp [setEdgeParam_names, setKindParams_names],
           by simp [setEdgeParam_kinds, setKindParams_kinds],
           by simp [setDistParam_names]⟩

lemma key_applies_congr (p q : ModelParams) (k : String)
    (hk : q.edgeParams.map EdgeParam.kind = p.edgeParams.map EdgeParam.kind)
    (hd : q.dists.map DistEntry.name = p.dists.map DistEntry.name) :
    key_applies q k = key_applies p k := by
  have h1 := any_congr_of_map_eq q.dists p.dists DistEntry.name
    (fun s => decide (s = k)) hd
  have h2 := any_congr_of_map_eq q.edgeParams p.edgeParams EdgeParam.kind
    (fun kd => decide (kd = EdgeParamKind.growth)) hk
  have h3 := any_congr_of_map_eq q.edgeParams p.edgeParams EdgeParam.kind
    (fun kd => decide (kd = EdgeParamKind.lnlMicro)) hk
  unfold key_applies
  rw [h1, h2, h3]

lemma set_kw_ok_inRange (p : ModelParams) (k : String) (v : ℚ) (p' : ModelParams)
    (h : set_kw p k v = .ok p') (happ : key_applies p k = true) :
    inRange01 v = true := by
  unfold set_kw at h
  unfold key_applies at happ
  split_ifs at h <;> simp_all

lemma assign_params_out_of_range (p : ModelParams) (kw : List (String × ℚ))
    (k : String) (v : ℚ) (hmem : (k, v) ∈ kw) (hrange : inRange01 v = false)
    (happ : key_applies p k = true) :
    (assign_params p kw).2.isSome = true := by
  induction kw generalizing p with
  | nil => cases hmem
  | cons hd tl ih =>
    rcases hd with ⟨k', v'⟩
    cases hsk : set_kw p k' v' with
    | error e => simp [assign_params, hsk]
    | ok p' =>
      rcases List.mem_cons.mp hmem with heq | htl
      · injection heq with hk hv
        subst hk; subst hv
        have := set_kw_ok_inRange p k v p' hsk happ
        rw [hrange] at this
        cases this
      · have shape := set_kw_ok_shape p k' v' p' hsk
        have happ' : key_applies p' k = true := by
          rw [key_applies_congr p p' k shape.2.1 shape.2.2]
          exact happ
        simpa [assign_params, hsk] using ih p' htl happ'

/-- C3 (amended): `likelihood(given_params=..., log=...)` returns `-∞`
(log) resp. `0` (linear) whenever the given parameters contain a value
outside `[0,1]` under a key that actually reaches a validation — any
key except the aggregate keys `"growth"` / `"micro_mod"` on a model
without growth edges resp. without LNL→LNL micro parameters, whose
assignment loops run zero iterations and silently accept the value. -/
theorem c3_likelihood_out_of_range {n : ℕ} (m : HMMModel n)
    (kw : List (String × ℚ)) (log : Bool) (k : String) (v : ℚ)
    (hmem : (k, v) ∈ kw) (hrange : inRange01 v = false)
    (happ : key_applies m.params k = true) :
    likelihood m kw log = if log then PyVal.neginf else PyVal.lin 0 := by
  have h := assign_params_out_of_range m.params kw k v hmem hrange happ
  unfold likelihood
  cases hap : assign_params m.params kw with
  | mk p' err =>
    rw [hap] at h
    cases err with
    | none => simp at h
    | some e => rfl

/-- C3 counterexample: on a binary model (no growth edges) the call
`likelihood(given_params={"growth": 2}, log=True)` silently accepts the
out-of-range value 2 — the loop over `self.growth_edges` runs zero
iterations, so no `ValueError` is raised — and returns the ordinary
finite log-likelihood instead of `-∞`. -/
theorem c3_likelihood_growth_key_ignored :
    likelihood exModel [("growth", 2)] true = PyVal.logOf 1 ∧
    ¬ likelihood exModel [("growth", 2)] true = PyVal.neginf := by
  have h : likelihood exModel [("growth", 2)] true = PyVal.logOf 1 := by
    simp [likelihood, assign_params, set_kw, exModel, exChainParams,
      hmm_likelihood_lin, evolve, t_stages, stage_prob, lookupA, iter_rows]
  refine ⟨h, ?_⟩
  rw [h]
  intro hc
  cases hc

/-- Witness for C3's amended theorem: an out-of-range spread probability
under its proper key yields `-∞`. -/
theorem c3_likelihood_out_of_range_witness :
    likelihood exModel [("spread_T_to_II", 2)] true = PyVal.neginf :=
  c3_likelihood_out_of_range exModel [("spread_T_to_II", 2)] true
    "spread_T_to_II" 2 (by decide) (by decide) (by decide)

end Lymph

namespace Lymph

lemma iter_rows_length {n : ℕ} (T : Matrix (Fin n) (Fin n) ℚ)
    (v : Fin n → ℚ) (k : ℕ) : (iter_rows T v k).length = k + 1 := by
  induction k generalizing v with
  | zero => rfl
  | succ k ih => simp [iter_rows, ih]

lemma iter_rows_get {n : ℕ} (T : Matrix (Fin n) (Fin n) ℚ) (v : Fin n → ℚ)
    (k i : ℕ) (h : i ≤ k) :
    (iter_rows T v k)[i]? = some (Matrix.vecMul v (T ^ i)) := by
  induction k generalizing v i with
  | zero =>
    interval_cases i
    simp [iter_rows]
  | succ k ih =>
    cases i with
    | zero => simp [iter_rows]
    | succ j =>
      have hj : j ≤ k := Nat.succ_le_succ_iff.mp h
      calc (iter_rows T v (k + 1))[j + 1]?
          = (iter_rows T (Matrix.vecMul v T) k)[j]? := by simp [iter_rows]
        _ = some (Matrix.vecMul (Matrix.vecMul v T) (T ^ j)) := ih (Matrix.vecMul v T) j hj
        _ = some (Matrix.vecMul v (T ^ (j + 1))) := by
            rw [Matrix.vecMul_vecMul, ← pow_succ']

/-- C4: the HMM evolution starts from `π₀ = (1, 0, …, 0)`; the single-
time call returns `π₀ · T^t`, and the call with `t_first=0` and a last
time `t_last` returns a `(t_last+1) × S` matrix whose row `t` equals
`π₀ · T^t`. -/
theorem c4_evolve_rows (n : ℕ) (T : Matrix (Fin n) (Fin n) ℚ) (tLast t : ℕ)
    (h : t ≤ tLast) :
    evolve_at T t = Matrix.vecMul (pi0 n) (T ^ t) ∧
    ∃ rows, evolve T 0 tLast = .ok rows ∧ rows.length = tLast + 1 ∧
      rows[t]? = some (Matrix.vecMul (pi0 n) (T ^ t)) := by
  refine ⟨rfl, ⟨iter_rows T (evolve_at T 0) tLast, ?_, ?_, ?_⟩⟩
  · simp [evolve]
  · exact iter_rows_length T (evolve_at T 0) tLast
  · rw [iter_rows_get T (evolve_at T 0) tLast t h]
    have h0 : evolve_at T 0 = pi0 n := by
      unfold evolve_at
      rw [pow_zero, Matrix.vecMul_one]
    rw [h0]

/-- Witness for C4 on a concrete 2-state matrix at `t = 1 ≤ t_last = 2`. -/
theorem c4_evolve_rows_witness :
    evolve_at exModel2.T 1 = Matrix.vecMul (pi0 2) (exModel2.T ^ 1) ∧
    ∃ rows, evolve exModel2.T 0 2 = .ok rows ∧ rows.length = 2 + 1 ∧
      rows[1]? = some (Matrix.vecMul (pi0 2) (exModel2.T ^ 1)) :=
  c4_evolve_rows 2 exModel2.T 2 1 (by decide)

end Lymph

namespace Lymph

lemma setEdgeParam_self (l : List EdgeParam) (e : EdgeParam) (he : e ∈ l)
    (hnd : (l.map EdgeParam.name).Nodup) : setEdgeParam l e.name e.value = l := by
  induction l with
  | nil => cases he
  | cons a rest ih =>
    rcases List.mem_cons.mp he with rfl | hrest
    · simp [setEdgeParam]
    · have hnd' := hnd
      rw [List.map_cons, List.nodup_cons] at hnd'
      have ha : ¬ a.name = e.name := by
        intro hname
        exact hnd'.1 (hname ▸ List.mem_map_of_mem EdgeParam.name hrest)
      simp [setEdgeParam, ha, ih hrest hnd'.2]

lemma setDistParam_self (l : List DistEntry) (d : DistEntry) (hd : d ∈ l)
    (hnd : (l.map DistEntry.name).Nodup) : setDistParam l d.name d.param = l := by
  induction l with
  | nil => cases hd
  | cons a rest ih =>
    rcases List.mem_cons.mp hd with rfl | hrest
    · simp [setDistParam]
    · have hnd' := hnd
      rw [List.map_cons, List.nodup_cons] at hnd'
      have ha : ¬ a.name = d.name := by
        intro hname
        exact hnd'.1 (hname ▸ List.mem_map_of_mem DistEntry.name hrest)
      simp [setDistParam, ha, ih hrest hnd'.2]

lemma set_kw_self_edge (m : ModelParams) (e : EdgeParam) (he : e ∈ m.edgeParams)
    (hnd : (m.edgeParams.map EdgeParam.name).Nodup)
    (hnotdist : ¬ e.name ∈ m.dists.map DistEntry.name)
    (hg : ¬ e.name = "growth") (hmm : ¬ e.name = "micro_mod")
    (hr : inRange01 e.value = true) :
    set_kw m e.name e.value = .ok m := by
  have h1 : ¬ m.dists.any (fun d => d.name = e.name) = true := by
    simp only [List.any_eq_true, decide_eq_true_eq, not_exists]
    intro d hdd
    rcases hdd with ⟨hd, hdd⟩
    exact hnotdist (hdd ▸ List.mem_map_of_mem DistEntry.name hd)
  have h2 : m.edgeParams.any (fun x => x.name = e.name) = true :=
    List.any_eq_true.mpr ⟨e, he, by simp⟩
  unfold set_kw
  rw [if_neg h1, if_neg hg, if_neg hmm, if_pos h2, if_pos hr,
    setEdgeParam_self m.edgeParams e he hnd]

lemma set_kw_self_dist (m : ModelParams) (d : DistEntry) (hd : d ∈ m.dists)
    (hnd : (m.dists.map DistEntry.name).Nodup)
    (hr : inRange01 d.param = true) :
    set_kw m d.name d.param = .ok m := by
  have h1 : m.dists.any (fun x => x.name = d.name) = true :=
    List.any_eq_true.mpr ⟨d, hd, by simp⟩
  unfold set_kw
  rw [if_pos h1, if_pos hr, setDistParam_self m.dists d hd hnd]

lemma assign_params_fixpoint (m : ModelParams) (kw : List (String × ℚ))
    (h : ∀ p ∈ kw, set_kw m p.1 p.2 = .ok m) :
    assign_params m kw = (m, none) := by
  induction kw with
  | nil => rfl
  | cons p rest ih =>
    rcases p with ⟨k, v⟩
    have hp := h (k, v) (List.mem_cons_self _ _)
    simp only [assign_params, hp]
    exact ih (fun q hq => h q (List.mem_cons_of_mem _ hq))

/-- C9: re-assigning the parameters read by `get_params` through
`assign_params(**get_params())` succeeds — every produced key is
accepted — and reading the parameters back yields the same values, for
every model whose parameter keys are distinct, none of whose keys is one
of the reserved aggregate names, and whose stored values are in range
(which every reachable model state satisfies, because the setters
validate). -/
theorem c9_param_round_trip (m : ModelParams)
    (hnodup : (m.edgeParams.map EdgeParam.name ++ m.dists.map DistEntry.name).Nodup)
    (hg : ¬ "growth" ∈ m.edgeParams.map EdgeParam.name)
    (hmi : ¬ "micro_mod" ∈ m.edgeParams.map EdgeParam.name)
    (hev : ∀ e ∈ m.edgeParams, inRange01 e.value = true)
    (hdv : ∀ d ∈ m.dists, inRange01 d.param = true) :
    assign_params m (get_params m) = (m, none) ∧
    get_params ((assign_params m (get_params m)).1) = get_params m := by
  rw [List.nodup_append] at hnodup
  have hfix : ∀ p ∈ get_params m, set_kw m p.1 p.2 = .ok m := by
    intro p hp
    unfold get_params at hp
    rcases List.mem_append.mp hp with hpe | hpd
    · rcases List.mem_map.mp hpe with ⟨e, he, rfl⟩
      refine set_kw_self_edge m e he hnodup.1 ?_ ?_ ?_ (hev e he)
      · exact fun hin => hnodup.2.2 (List.mem_map_of_mem EdgeParam.name he) hin
      · exact fun heq => hg (heq ▸ List.mem_map_of_mem EdgeParam.name he)
      · exact fun heq => hmi (heq ▸ List.mem_map_of_mem EdgeParam.name he)
    · rcases List.mem_map.mp hpd with ⟨d, hd, rfl⟩
      exact set_kw_self_dist m d hd hnodup.2.1 (hdv d hd)
  have h := assign_params_fixpoint m (get_params m) hfix
  exact ⟨h, by rw [h]⟩

/-- Witness for C9 on the chain parameters. -/
theorem c9_param_round_trip_witness :
    assign_params exChainParams (get_params exChainParams) = (exChainParams, none) ∧
    get_params ((assign_params exChainParams (get_params exChainParams)).1) =
      get_params exChainParams :=
  c9_param_round_trip exChainParams (by decide) (by decide) (by decide)
    (by decide) (by decide)

end Lymph

namespace Lymph

lemma comp_diagnose_prob_empty (mods : List (String × List (List ℚ)))
    (lnls : List (String × ℕ)) :
    comp_diagnose_prob mods lnls [] = 1 := by
  unfold comp_diagnose_prob
  have h : ∀ (ms : List (String × List (List ℚ))) (acc : ℚ),
      ms.foldl (fun prob mo =>
        match lookupA ([] : List (String × List (String × Option Bool))) mo.1 with
        | none => prob
        | some modDiagnose =>
          lnls.foldl (fun prob lnl =>
            match lookupA modDiagnose lnl.1 with
            | none => prob
            | some obs => prob * comp_obs_prob obs lnl.2 mo.2) prob) acc = acc := by
    intro ms
    induction ms with
    | nil => intro acc; rfl
    | cons mo rest ih => intro acc; exact ih acc
  exact h mods 1

lemma sum_vecMul {n : ℕ} (v : Fin n → ℚ) (T : Matrix (Fin n) (Fin n) ℚ) :
    ∑ j, Matrix.vecMul v T j = ∑ i, v i * ∑ j, T i j := by
  simp only [Matrix.vecMul, Matrix.dotProduct]
  rw [Finset.sum_comm]
  exact Finset.sum_congr rfl (fun i _ => (Finset.mul_sum _ _ _).symm)

lemma sum_pi0 {n : ℕ} (hn : 0 < n) : ∑ i, pi0 n i = 1 := by
  cases n with
  | zero => exact absurd hn (lt_irrefl 0)
  | succ m =>
    have hfun : (pi0 (m + 1)) = fun i : Fin (m + 1) => if i = 0 then (1 : ℚ) else 0 := by
      funext i
      by_cases h : i = 0
      · subst h
        simp [pi0]
      · have hv : ¬ i.val = 0 := fun hval => h (Fin.ext (by simpa using hval))
        simp [pi0, h, hv]
    rw [hfun]
    simp

lemma sum_vecMul_one {n : ℕ} (T : Matrix (Fin n) (Fin n) ℚ)
    (hT : ∀ i, ∑ j, T i j = 1) (v : Fin n → ℚ) (hv : ∑ i, v i = 1) :
    ∑ j, Matrix.vecMul v T j = 1 := by
  rw [sum_vecMul]
  simp only [hT, mul_one]
  exact hv

lemma iter_rows_sum_one {n : ℕ} (T : Matrix (Fin n) (Fin n) ℚ)
    (hT : ∀ i, ∑ j, T i j = 1) (k : ℕ) :
    ∀ (v : Fin n → ℚ), (∑ i, v i = 1) →
      ∀ row ∈ iter_rows T v k, ∑ j, row j = 1 := by
  induction k with
  | zero =>
    intro v hv row hrow
    simp only [iter_rows, List.mem_singleton] at hrow
    subst hrow
    exact hv
  | succ k ih =>
    intro v hv row hrow
    rw [iter_rows] at hrow
    rcases List.mem_cons.mp hrow with rfl | h2
    · exact hv
    · exact ih (Matrix.vecMul v T) (sum_vecMul_one T hT v hv) row h2

lemma sum_marg {n : ℕ} (pmf : List ℚ) (rows : List (Fin n → ℚ))
    (hrows : ∀ row ∈ rows, ∑ j, row j = 1)
    (hlen : pmf.length ≤ rows.length) :
    ∑ j, marg_state_probs pmf rows j = pmf.sum := by
  induction pmf generalizing rows with
  | nil => simp [marg_state_probs]
  | cons p pmf' ih =>
    cases rows with
    | nil => simp at hlen
    | cons r rows' =>
      have h1 : ∀ row ∈ rows', ∑ j, row j = 1 :=
        fun row hr => hrows row (List.mem_cons_of_mem _ hr)
      have h2 : pmf'.length ≤ rows'.length := Nat.succ_le_succ_iff.mp hlen
      have hr : ∑ j, r j = 1 := hrows r (List.mem_cons_self _ _)
      simp only [marg_state_probs, List.zipWith_cons_cons, List.sum_cons]
      rw [Finset.sum_add_distrib, ← Finset.mul_sum, hr, mul_one]
      have := ih rows' h1 h2
      simp only [marg_state_probs] at this
      rw [this]

lemma marg_rows_eq_spec {n : ℕ} (T : Matrix (Fin n) (Fin n) ℚ) (pmf : List ℚ) :
    ∀ (k : ℕ) (v : Fin n → ℚ), pmf.length ≤ k + 1 →
    marg_state_probs pmf (iter_rows T v k) =
      fun j => ((List.range pmf.length).map
        (fun t => pmf.getD t 0 * Matrix.vecMul v (T ^ t) j)).sum := by
  induction pmf with
  | nil =>
    intro k v _
    funext j
    simp [marg_state_probs]
  | cons p pmf' ih =>
    intro k v hlen
    funext j
    cases k with
    | zero =>
      have h0 : pmf' = [] :=
        List.eq_nil_of_length_eq_zero (Nat.le_zero.mp (Nat.succ_le_succ_iff.mp hlen))
      subst h0
      have hr1 : List.range 1 = [0] := rfl
      simp [marg_state_probs, iter_rows, pow_zero, Matrix.vecMul_one, hr1,
        List.getD_cons_zero]
    | succ k =>
      have hlen' : pmf'.length ≤ k + 1 := Nat.succ_le_succ_iff.mp hlen
      have hrec := congrFun (ih k (Matrix.vecMul v T) hlen') j
      simp only [marg_state_probs, iter_rows, List.zipWith_cons_cons,
        List.sum_cons] at hrec ⊢
      rw [hrec, List.length_cons, List.range_succ_eq_map]
      simp only [List.map_cons, List.sum_cons, List.map_map, Function.comp]
      congr 1
      · rw [List.getD_cons_zero, pow_zero, Matrix.vecMul_one]
      · refine congrArg List.sum (List.map_congr_left ?_)
        intro t _
        simp only [Function.comp_apply]
        rw [List.getD_cons_succ, Matrix.vecMul_vecMul, ← pow_succ']

/-- C6: with `involvement` unspecified and empty `given_diagnoses`, the
diagnose probability of every state is 1, so `risk` returns exactly the
time-marginalized distribution `π_marg = pmf · Π`, and that posterior
sums to 1 — provided the requested T-stage has a normalized pmf over
the evolution horizon and the transition matrix is row-stochastic. -/
theorem c6_risk_uniform_posterior (n : ℕ) (m : HMMModel n) (t_stage : String)
    (pmf : List ℚ) (hn : 0 < n)
    (hd : lookupA (m.params.dists.map (fun d => (d.name, d.pmf))) t_stage = some pmf)
    (hsum : pmf.sum = 1) (hlen : pmf.length ≤ m.maxT + 1)
    (hT : ∀ i, ∑ j, m.T i j = 1) :
    risk_posterior m [] t_stage = some (pi_marg_spec pmf m.T) ∧
    ∑ j, pi_marg_spec pmf m.T j = 1 := by
  have h0 : evolve_at m.T 0 = pi0 n := by
    unfold evolve_at
    rw [pow_zero, Matrix.vecMul_one]
  have hrows : ∀ row ∈ iter_rows m.T (evolve_at m.T 0) m.maxT, ∑ j, row j = 1 := by
    refine iter_rows_sum_one m.T hT m.maxT (evolve_at m.T 0) ?_
    rw [h0]
    exact sum_pi0 hn
  have hlen' : pmf.length ≤ (iter_rows m.T (evolve_at m.T 0) m.maxT).length := by
    rw [iter_rows_length]
    exact hlen
  have hspec : marg_state_probs pmf (iter_rows m.T (evolve_at m.T 0) m.maxT) =
      pi_marg_spec pmf m.T := by
    rw [marg_rows_eq_spec m.T pmf m.maxT (evolve_at m.T 0) hlen, h0]
    rfl
  have hmargsum : ∑ j, pi_marg_spec pmf m.T j = 1 := by
    rw [← hspec, sum_marg pmf _ hrows hlen', hsum]
  refine ⟨?_, hmargsum⟩
  unfold risk_posterior
  rw [hd]
  have he : evolve m.T 0 m.maxT =
      .ok (iter_rows m.T (evolve_at m.T 0) m.maxT) := by
    simp [evolve]
  rw [he]
  simp only [comp_diagnose_prob_empty, mul_one, hspec, hmargsum, div_one]

end Lymph

namespace Lymph

/-- Witness for C6 on the concrete 2-state model: the posterior with no
diagnoses equals the marginalized distribution and sums to 1. -/
theorem c6_risk_uniform_posterior_witness :
    risk_posterior exModel2 [] ("early") = some (pi_marg_spec [1] exModel2.T) ∧
    ∑ j, pi_marg_spec [1] exModel2.T j = 1 :=
  c6_risk_uniform_posterior 2 exModel2 "early" [1] (by decide) (by rfl)
    (by simp) (by decide)
    (by
      intro i
      fin_cases i <;> simp [exModel2, Fin.sum_univ_two])

lemma any_name_eq_false (dists : List DistEntry) (s : String)
    (h : ¬ s ∈ dists.map DistEntry.name) :
    (dists.any (fun d => d.name = s)) = false := by
  cases hb : dists.any (fun d => d.name = s) with
  | false => rfl
  | true =>
    exfalso
    rcases List.any_eq_true.mp hb with ⟨d, hd, hds⟩
    rw [decide_eq_true_eq] at hds
    exact h (hds ▸ List.mem_map_of_mem DistEntry.name hd)

lemma lookupA_filter_ne {α : Type} (l : List (String × α)) (s x : String)
    (hx : ¬ x = s) :
    lookupA (l.filter (fun p => ¬ p.1 = s)) x = lookupA l x := by
  induction l with
  | nil => rfl
  | cons a rest ih =>
    rcases a with ⟨k, v⟩
    rw [List.filter_cons]
    by_cases hk : k = s
    · have hkx : ¬ k = x := by
        intro hcontra
        apply hx
        rw [← hcontra]
        exact hk
      rw [if_neg (by simp [hk]), ih, lookupA, if_neg hkx]
    · rw [if_pos (by simp [hk]), lookupA, lookupA, ih]

lemma map_fst_filter {α : Type} (l : List (String × α)) (s : String) :
    (l.filter (fun p => ¬ p.1 = s)).map Prod.fst =
      (l.map Prod.fst).filter (fun x => ¬ x = s) := by
  induction l with
  | nil => rfl
  | cons a rest ih =>
    rcases a with ⟨k, v⟩
    rw [List.map_cons, List.filter_cons, List.filter_cons]
    by_cases hk : k = s
    · rw [if_neg (by simp [hk]), if_neg (by simp [hk]), ih]
    · rw [if_pos (by simp [hk]), if_pos (by simp [hk]), List.map_cons, ih]

lemma filter_drop_s (names : List String) (s : String) (q : String → Bool)
    (hq : q s = false) :
    (names.filter (fun x => ¬ x = s)).filter q = names.filter q := by
  induction names with
  | nil => rfl
  | cons a rest ih =>
    rw [List.filter_cons]
    by_cases ha : a = s
    · subst ha
      rw [if_neg (by simp), List.filter_cons, hq]
      simp only [Bool.false_eq_true, if_false]
      exact ih
    · rw [if_pos (by simp [ha]), List.filter_cons, List.filter_cons]
      by_cases hqa : q a = true
      · rw [if_pos hqa, if_pos hqa, ih]
      · rw [if_neg hqa, if_neg hqa, ih]

lemma foldl_mul_congr {α : Type} (l : List α) (f g : α → ℚ)
    (h : ∀ x ∈ l, f x = g x) :
    ∀ c : ℚ, l.foldl (fun a x => a * f x) c = l.foldl (fun a x => a * g x) c := by
  induction l with
  | nil => intro c; rfl
  | cons a rest ih =>
    intro c
    rw [List.foldl_cons, List.foldl_cons, h a (List.mem_cons_self _ _)]
    exact ih (fun x hx => h x (List.mem_cons_of_mem _ hx)) (c * g a)

lemma hmm_likelihood_erase {n : ℕ} (M : HMMModel n) (s : String)
    (h : ¬ s ∈ M.params.dists.map DistEntry.name) :
    hmm_likelihood_lin (erase_stage M s) = hmm_likelihood_lin M := by
  have hq := any_name_eq_false M.params.dists s h
  simp only [hmm_likelihood_lin, erase_stage]
  cases hev : evolve M.T 0 M.maxT with
  | error e => rfl
  | ok evolved =>
    have hts : t_stages { M with diagnoseMatrices :=
        M.diagnoseMatrices.filter (fun p => ¬ p.1 = s) } = t_stages M := by
      simp only [t_stages]
      rw [map_fst_filter]
      exact filter_drop_s (M.diagnoseMatrices.map Prod.fst) s _ (by simpa using hq)
    rw [hts]
    apply foldl_mul_congr
    intro x hx
    have hxs : ¬ x = s := by
      rcases List.mem_filter.mp hx with ⟨_, hpx⟩
      intro hxeq
      rw [hxeq, hq] at hpx
      cases hpx
    simp only [stage_prob]
    rw [lookupA_filter_ne M.diagnoseMatrices s x hxs]

/-- C7: the HMM likelihood multiplies contributions only of T-stages in
the intersection of the loaded data's T-stages and the configured
diagnose-time distributions; a T-stage present in the data without a
distribution produces a (non-fatal) warning in `load_data`, and its
patients contribute nothing — removing that stage's diagnose matrix
leaves the likelihood unchanged. -/
theorem c7_likelihood_stage_intersection {n : ℕ} (m : HMMModel n)
    (data : List Patient) (s : String)
    (h1 : s ∈ data_t_stages data)
    (h2 : ¬ s ∈ m.params.dists.map DistEntry.name) :
    s ∈ load_data_warnings m data ∧
    hmm_likelihood_lin (erase_stage (load_data m data) s) =
      hmm_likelihood_lin (load_data m data) := by
  constructor
  · unfold load_data_warnings
    rw [List.mem_filter]
    refine ⟨h1, ?_⟩
    simp only [any_name_eq_false m.params.dists s h2, Bool.not_false]
  · exact hmm_likelihood_erase (load_data m data) s h2

/-- Witness for C7: the T-stage `"foo"` of the example data has no
distribution, is warned about, and does not change the likelihood. -/
theorem c7_likelihood_stage_intersection_witness :
    "foo" ∈ load_data_warnings exModel exData ∧
    hmm_likelihood_lin (erase_stage (load_data exModel exData) "foo") =
      hmm_likelihood_lin (load_data exModel exData) :=
  c7_likelihood_stage_intersection exModel exData "foo" (by decide) (by decide)

end Lymph

namespace Lymph

lemma foldl_mul_map {α : Type} (l : List α) (f : α → ℚ) :
    ∀ c : ℚ, l.foldl (fun r x => r * f x) c = c * (l.map f).prod := by
  induction l with
  | nil => intro c; simp
  | cons a rest ih =>
    intro c
    rw [List.foldl_cons, ih (c * f a), List.map_cons, List.prod_cons, mul_assoc]

lemma bn_prob_zero (inc : List (ℚ × ℕ)) : bn_prob 0 inc = prod_no_spread inc := by
  unfold bn_prob prod_no_spread
  rw [foldl_mul_map inc (fun tx => (1 - tx.1) ^ tx.2) 1]
  simp

lemma bn_prob_one (inc : List (ℚ × ℕ)) : bn_prob 1 inc = 1 - prod_no_spread inc := by
  unfold bn_prob prod_no_spread
  rw [foldl_mul_map inc (fun tx => (1 - tx.1) ^ tx.2) 1]
  push_cast
  ring

lemma state_of_index_lt (b L i : ℕ) (hb : 0 < b) :
    ∀ s ∈ state_of_index b L i, s < b := by
  intro s hs
  unfold state_of_index at hs
  rcases List.mem_map.mp hs with ⟨k, _, rfl⟩
  exact Nat.mod_lt _ hb

lemma bn_state_prob_eq_spec (g : List BNLnl) (sv : List ℕ)
    (hsv : ∀ s ∈ sv, s < 2) :
    bn_state_prob g sv = pi_bn_spec g sv := by
  unfold bn_state_prob pi_bn_spec
  rw [foldl_mul_map, one_mul]
  refine congrArg List.prod (List.map_congr_left ?_)
  intro ls hls
  have h2 : ls.2 < 2 := hsv ls.2 (List.of_mem_zip hls).2
  have hcase : ls.2 = 0 ∨ ls.2 = 1 := by omega
  rcases hcase with h0 | h1
  · rw [h0, bn_prob_zero]
    simp [bn_cond_prob_spec]
  · rw [h1, bn_prob_one]
    simp [bn_cond_prob_spec]

/-- C8: `Node.bn_prob` of a binary LNL equals `∏ (1−t_e)^{x_e}` in state
0 and one minus that product in state 1 (so the two states sum to 1);
consequently the `state_probs` vector of the BN branch of `_likelihood`
is exactly the spec's `π_BN` — the per-state product of the conditional
probabilities of each LNL given its parents — and the BN likelihood
multiplies `π_BN` into the diagnose matrix stored under the key
`"BN"`. -/
theorem c8_bn_mode (g : List BNLnl) (dm : List (String × List (List ℚ)))
    (inc : List (ℚ × ℕ)) :
    bn_prob 0 inc = prod_no_spread inc ∧
    bn_prob 1 inc = 1 - prod_no_spread inc ∧
    bn_prob 0 inc + bn_prob 1 inc = 1 ∧
    bn_state_prob_list 2 g =
      (List.range (2 ^ g.length)).map
        (fun i => pi_bn_spec g (state_of_index 2 g.length i)) ∧
    bn_likelihood_lin 2 g dm =
      ((lookupA dm ("BN")).getD []).foldl
        (fun acc col => acc * dotL ((List.range (2 ^ g.length)).map
          (fun i => pi_bn_spec g (state_of_index 2 g.length i))) col) 1 := by
  have h4 : bn_state_prob_list 2 g =
      (List.range (2 ^ g.length)).map
        (fun i => pi_bn_spec g (state_of_index 2 g.length i)) := by
    unfold bn_state_prob_list
    refine List.map_congr_left ?_
    intro i _
    exact bn_state_prob_eq_spec g _ (state_of_index_lt 2 g.length i (by decide))
  refine ⟨bn_prob_zero inc, bn_prob_one inc, ?_, h4, ?_⟩
  · rw [bn_prob_zero, bn_prob_one]
    ring
  · unfold bn_likelihood_lin
    rw [h4]

end Lymph
